import Mathlib

/-!
# Verification of the AoC-Companion streamed-diagram pipeline and chat coordinator

Shallow embedding of the logic-bearing parts of the repository:

* `patchChart` — the heuristic Mermaid label-repair pass of `MermaidChart`
  (`src/components/ChatMessage.tsx`, line 31):
  `chart.replace(/\[([^"\]\n]*?[\(\),][^"\]\n]*?)\]/g, '["$1"]')`.
  Strings are modelled as `List Char`.  The JS regex engine scans left to
  right; at a `[` it matches up to the first following `]`, provided the
  span in between contains none of `"`, `]`, `\n` and at least one of
  `(`, `)`, `,`; on a match the span is wrapped in double quotes and the
  scan resumes after the `]`, otherwise the scan resumes one character on.
* `sendMessageToGemini`, `orFallback`, `appendSources` — the send path of
  `src/services/geminiService.ts`.
* `renderChartStep`, `retryClick`, `chartView` — the render / failure /
  retry state of the `MermaidChart` component.
* `runUpdates` — the 600 ms debounce of the render effect.
* `handleSendMessage`, `stepSys` — the submit gating of the `App`
  component, and `fetchStart` / `fetchResolve` — its puzzle-context fetch.
-/

set_option autoImplicit false

/-- Characters excluded from a regex match span: the character class of the
label-repair regex is `[^"\]\n]`, so `"`, `]` and a newline end or abort
the candidate span. -/
def isExcluded (c : Char) : Bool := c = '"' || c = ']' || c = '\n'

/-- Characters that trigger the repair: the regex requires one of
`(`, `)`, `,` inside the bracket group. -/
def isTrigger (c : Char) : Bool := c = '(' || c = ')' || c = ','

/-- Scan for the closing `]` of a candidate bracket group, mirroring the
regex body `[^"\]\n]*?[\(\),][^"\]\n]*?\]` minus the trigger requirement:
returns the span before the first `]` and the remainder after it, and
fails (`none`) if a `"` or newline appears first or the list ends. -/
def findGroup : List Char → Option (List Char × List Char)
  | [] => none
  | c :: rest =>
    if c = ']' then some ([], rest)
    else if c = '"' || c = '\n' then none
    else
      match findGroup rest with
      | some (run, tail) => some (c :: run, tail)
      | none => none

/-- Fuel-indexed repair scan; `patchChart` supplies fuel `l.length`, which
is always sufficient (each step consumes at least one character). -/
def patchF : Nat → List Char → List Char
  | _, [] => []
  | 0, l => l
  | n + 1, c :: rest =>
    if c = '[' then
      match findGroup rest with
      | some (run, tail) =>
        if run.any isTrigger then
          '[' :: '"' :: (run ++ '"' :: ']' :: patchF n tail)
        else
          c :: patchF n rest
      | none => c :: patchF n rest
    else c :: patchF n rest

/-- The heuristic repair pass of `MermaidChart`:
`chart.replace(/\[([^"\]\n]*?[\(\),][^"\]\n]*?)\]/g, '["$1"]')`. -/
def patchChart (l : List Char) : List Char := patchF l.length l

/-- Split a candidate bracket label at the first `]`, regardless of quotes
or newlines: states what counts as a bracket group in the spec's sense
("node-label bracket groups `[...]`"). -/
def findClose : List Char → Option (List Char × List Char)
  | [] => none
  | c :: rest =>
    if c = ']' then some ([], rest)
    else
      match findClose rest with
      | some (content, tail) => some (c :: content, tail)
      | none => none

/-- A label already enclosed in double quotes: at least two characters,
starting and ending with `"`. -/
def isQuotedLabel (content : List Char) : Bool :=
  decide (2 ≤ content.length) && (content.head? == some '"') &&
    (content.getLast? == some '"')

/-- Spec §8: "all bracketed labels containing parentheses or commas are
already enclosed in double quotes" — checked for every bracket group of
the source (the span from a `[` to the first following `]`). -/
def wellFormed : List Char → Bool
  | [] => true
  | c :: rest =>
    (if c = '[' then
      match findClose rest with
      | some (content, _) => !content.any isTrigger || isQuotedLabel content
      | none => true
    else true) && wellFormed rest

/-- Source text assembled from bracket-free segments and bracket groups:
`seg₀[run₀]seg₁[run₁]…last`. -/
def buildSrc : List (List Char × List Char) → List Char → List Char
  | [], last => last
  | (seg, run) :: gs, last => seg ++ '[' :: (run ++ ']' :: buildSrc gs last)

/-- The same source with each bracket group whose content has a
parenthesis or comma wrapped in double quotes, all else untouched. -/
def buildOut : List (List Char × List Char) → List Char → List Char
  | [], last => last
  | (seg, run) :: gs, last =>
      seg ++
        (if run.any isTrigger then '[' :: '"' :: (run ++ '"' :: ']' :: buildOut gs last)
         else '[' :: (run ++ ']' :: buildOut gs last))

/-- An entry of `groundingMetadata.groundingChunks`: an optional web
source with optional uri and title. -/
structure WebSource where
  uri : Option String
  title : Option String

structure GroundingChunk where
  web : Option WebSource

/-- The fields of a model response that `sendMessageToGemini` reads. -/
structure GenResponse where
  text : Option String
  groundingChunks : List GroundingChunk

/-- The awaited `chatSession.sendMessage` round trip: it either yields a
response or throws. -/
inductive BackendResult
  | success (r : GenResponse)
  | failure

def fallbackText : String := "I couldn't generate a response. Please try again."

def commErrorText : String :=
  "Error communicating with the AI. Please check your connection or API key."

def notInitText : String := "Chat session not initialized"

/-- `response.text || "I couldn't generate a response. Please try again."`
— JS `||` treats both `undefined` and the empty string as falsy. -/
def orFallback (t : Option String) : String :=
  match t with
  | none => fallbackText
  | some s => if s = "" then fallbackText else s

/-- One grounding chunk's link: `if (chunk.web?.uri && chunk.web?.title)`
then `[title](uri)`, else `null` (filtered out by `.filter(Boolean)`);
empty strings are falsy in JS. -/
def chunkLink (c : GroundingChunk) : Option String :=
  match c.web with
  | some w =>
    match w.uri, w.title with
    | some uri, some title =>
        if uri = "" || title = "" then none
        else some ("[" ++ title ++ "](" ++ uri ++ ")")
    | _, _ => none
  | none => none

/-- The grounding-source appendix of `sendMessageToGemini` (lines
127-141 of `geminiService.ts`). -/
def appendSources (text : String) (chunks : List GroundingChunk) : String :=
  if chunks.isEmpty then text
  else if (chunks.filterMap chunkLink).isEmpty then text
  else
    text ++ "\n\n**Sources:**\n" ++
      String.intercalate "\n" ((chunks.filterMap chunkLink).map (fun s => "- " ++ s))

/-- `sendMessageToGemini` (`src/services/geminiService.ts`, lines
116-148): throws when no chat session is live; otherwise any backend
failure is caught and the fixed user-facing error string returned. -/
def sendMessageToGemini (sessionLive : Bool) (backend : BackendResult) :
    Except String String :=
  if sessionLive then
    match backend with
    | .success r => .ok (appendSources (orFallback r.text) r.groundingChunks)
    | .failure => .ok commErrorText
  else .error notInitText

/-- The `useState` pieces of `MermaidChart` together with the current
`chart` prop. -/
structure MermaidState where
  chart : List Char
  svg : List Char
  error : Bool
  isProcessing : Bool

/-- State at mount: `useState('')`, `useState(false)`, `useState(true)`. -/
def mermaidInit (chart : List Char) : MermaidState :=
  { chart := chart, svg := [], error := false, isProcessing := true }

/-- Outcome of `mermaid.render` on a given patched source. -/
inductive RenderOutcome
  | ok (svg : List Char)
  | raise

/-- One run of `renderChart` (`ChatMessage.tsx`, lines 28-48): patch the
chart, invoke the engine once, update state per the try/catch.  The
second component lists the sources handed to `mermaid.render`. -/
def renderChartStep (s : MermaidState) (engine : List Char → RenderOutcome) :
    MermaidState × List (List Char) :=
  let patched := patchChart s.chart
  match engine patched with
  | .ok svg => ({ s with svg := svg, error := false, isProcessing := false }, [patched])
  | .raise => ({ s with error := true, isProcessing := false }, [patched])

/-- The Retry button of the failed banner: `onClick={() => setError(false)}`.
No render-engine invocation is made. -/
def retryClick (s : MermaidState) : MermaidState × List (List Char) :=
  ({ s with error := false }, [])

/-- What `MermaidChart` displays. -/
inductive MermaidView
  | failed (source : List Char)
  | generating
  | compact (svg : List Char)

/-- The component's render branches: the failed banner shows the raw
`chart` prop; the loading placeholder shows while processing with no svg;
otherwise the compact/modal view of the svg. -/
def mermaidView (s : MermaidState) : MermaidView :=
  if s.error then .failed s.chart
  else if s.isProcessing && s.svg.isEmpty then .generating
  else .compact s.svg

/-- `idRef = useRef('mermaid-' + Math.random().toString(36).substr(2, 9))`:
one identifier minted per mounted diagram block from its random seed. -/
def mkMermaidId (seed : List Char) : List Char := "mermaid-".toList ++ seed

/-- The identifiers passed to `mermaid.render` by `n` successive render
attempts of one block: every attempt reads the same `idRef.current`. -/
def renderIds (seed : List Char) (n : Nat) : List (List Char) :=
  List.replicate n (mkMermaidId seed)

/-- The debounce state of the render effect: at most one pending
`setTimeout`, holding its fire time and the captured chart text. -/
structure DebounceState where
  pending : Option (Nat × List Char)

/-- Effect re-run on a chart change at time `t`: the cleanup cancelled the
previous timer (`clearTimeout`) and a fresh 600 ms timer is installed. -/
def applyUpdate (_s : DebounceState) (t : Nat) (v : List Char) : DebounceState :=
  ⟨some (t + 600, v)⟩

/-- Timer expiry at time `now`: a due timer fires `renderChart` once with
its captured chart and is consumed. -/
def fireDue (s : DebounceState) (now : Nat) : DebounceState × List (List Char) :=
  match s.pending with
  | some (tf, v) => if tf ≤ now then (⟨none⟩, [v]) else (s, [])
  | none => (s, [])

/-- Process a sequence of timed chart updates: before each update any due
timer fires, then the update cancels and reschedules.  Returns the final
state and every chart a fired timer rendered. -/
def runUpdates : DebounceState → List (Nat × List Char) → DebounceState × List (List Char)
  | s, [] => (s, [])
  | s, (t, v) :: rest =>
    let p := fireDue s t
    let s2 := applyUpdate p.1 t v
    let q := runUpdates s2 rest
    (q.1, p.2 ++ q.2)

/-- The last update of a nonempty burst. -/
def lastUpdate (p : Nat × List Char) : List (Nat × List Char) → Nat × List Char
  | [] => p
  | q :: rest => lastUpdate q rest

/-- Times strictly increase and each gap stays under 600 ms. -/
def rapidAfter (t : Nat) : List (Nat × List Char) → Bool
  | [] => true
  | (t2, _) :: rest => (decide (t < t2) && decide (t2 < t + 600)) && rapidAfter t2 rest

inductive Sender
  | user
  | ai
  | system

/-- `Message` of `src/types.ts`. -/
structure Message where
  id : String
  text : String
  sender : Sender
  timestamp : Nat

/-- The `App` component state read and written by `handleSendMessage`. -/
structure ChatAppState where
  messages : List Message
  inputValue : String
  isLoading : Bool
  isInitialized : Bool

/-- `handleSendMessage` (`App`, lines 98-113): guarded by
`!inputValue.trim() || isLoading || !isInitialized`; on pass it clears the
input, appends the user message and sets the loading flag.  The second
component lists the texts sent to `sendMessageToGemini`. -/
def handleSendMessage (s : ChatAppState) (now : Nat) :
    ChatAppState × List String :=
  if s.inputValue.trim == "" || s.isLoading || !s.isInitialized then (s, [])
  else
    let userText := s.inputValue.trim
    ({ s with
        inputValue := "",
        messages := s.messages ++ [⟨toString now, userText, Sender.user, now⟩],
        isLoading := true },
      [userText])

/-- External events on the send path: a submit, or the resolution of an
in-flight `sendMessageToGemini` call (`finally` clears the loading flag;
a thrown error appends nothing to the transcript). -/
inductive ChatEvent
  | submit (now : Nat)
  | resolve (reply : Except String String) (now : Nat)

/-- App state plus the number of in-flight `sendMessageToGemini` calls. -/
structure ChatSystem where
  app : ChatAppState
  inFlight : Nat

def stepSys (s : ChatSystem) : ChatEvent → ChatSystem
  | .submit now =>
    let p := handleSendMessage s.app now
    ⟨p.1, s.inFlight + p.2.length⟩
  | .resolve reply now =>
    ⟨{ s.app with
        isLoading := false,
        messages :=
          match reply with
          | .ok t => s.app.messages ++ [⟨toString (now + 1), t, Sender.ai, now⟩]
          | .error _ => s.app.messages },
      s.inFlight - 1⟩

/-- The `Ready` state right after a successful `initializeChat`. -/
def chatSysInit : ChatSystem :=
  ⟨⟨[], "", false, true⟩, 0⟩

/-- The configuration slice of `AppState` used by the context fetch,
plus the in-flight `fetchPuzzleFromAoC` call with the year/day captured
when it started. -/
structure FetchConfig where
  year : String
  day : String
  puzzleContext : String
  isContextLoading : Bool
  inFlight : Option (String × String)

/-- `fetchContext` entry (`App`, lines 25-28): set the loading flag and
start `fetchPuzzleFromAoC(appState.year, appState.day)` with the
configuration current at call time. -/
def fetchStart (s : FetchConfig) : FetchConfig :=
  { s with isContextLoading := true, inFlight := some (s.year, s.day) }

/-- A year/day edit while the fetch is in flight: the debounce effect's
cleanup clears only the pending *timer*; a started fetch keeps running. -/
def changeYearDay (s : FetchConfig) (y d : String) : FetchConfig :=
  { s with year := y, day := d }

/-- `fetchContext` resumption (`App`, lines 29-30): store the resolved
text into `puzzleContext` unconditionally — no check that the year/day
still match the values captured at `fetchStart`. -/
def fetchResolve (s : FetchConfig) (text : String) : FetchConfig :=
  { s with puzzleContext := text, isContextLoading := false, inFlight := none }

/-- The superseded `App` variant (`src/unnamed/part_001`, lines 27-42):
its resumption applies the result only while the starting effect instance
is still mounted (its cleanup flips `isMounted` on a year/day change). -/
def fetchResolveGuarded (s : FetchConfig) (text : String) (mounted : Bool) : FetchConfig :=
  if mounted then fetchResolve s text else s

/-! ## Basic facts about `findGroup` -/

theorem findGroup_some_eq_append :
    ∀ (l run tail : List Char), findGroup l = some (run, tail) →
      l = run ++ ']' :: tail ∧ ∀ c ∈ run, isExcluded c = false := by
  intro l
  induction l with
  | nil => intro run tail h; simp [findGroup] at h
  | cons c rest ih =>
    intro run tail h
    by_cases hc : c = ']'
    · simp [findGroup, hc] at h
      obtain ⟨h1, h2⟩ := h
      subst h1; subst h2; subst hc
      exact ⟨rfl, by intro c hc; simp at hc⟩
    · by_cases hq : c = '"' ∨ c = '\n'
      · exfalso
        rcases hq with hq | hq <;> simp [findGroup, hc, hq] at h
      · push_neg at hq
        obtain ⟨hq1, hq2⟩ := hq
        simp only [findGroup, if_neg hc] at h
        rw [if_neg (by simp [hq1, hq2])] at h
        cases hfg : findGroup rest with
        | none => rw [hfg] at h; simp at h
        | some p =>
          obtain ⟨run0, tail0⟩ := p
          rw [hfg] at h
          simp at h
          obtain ⟨h1, h2⟩ := h
          obtain ⟨he, hall⟩ := ih run0 tail0 hfg
          subst h2
          rw [← h1]
          constructor
          · rw [he]; simp
          · intro d hd
            rcases List.mem_cons.mp hd with hd | hd
            · subst hd; simp [isExcluded, hc, hq1, hq2]
            · exact hall d hd

theorem findGroup_some_length {l run tail : List Char}
    (h : findGroup l = some (run, tail)) : tail.length < l.length := by
  obtain ⟨he, -⟩ := findGroup_some_eq_append l run tail h
  rw [he]
  simp
  omega

/-- Constructing a successful scan: if `run` has no excluded characters,
the scan over `run ++ ']' :: tail` closes at that `]`. -/
theorem findGroup_of_shape :
    ∀ (run tail : List Char), (∀ c ∈ run, isExcluded c = false) →
      findGroup (run ++ ']' :: tail) = some (run, tail) := by
  intro run
  induction run with
  | nil => intro tail _; simp [findGroup]
  | cons c rest ih =>
    intro tail hall
    have hc : isExcluded c = false := hall c (by simp)
    simp only [isExcluded, Bool.or_eq_false_iff, decide_eq_false_iff_not] at hc
    obtain ⟨⟨hc1, hc2⟩, hc3⟩ := hc
    simp only [List.cons_append, findGroup, List.append_eq, if_neg hc2]
    rw [if_neg (by simp [hc1, hc3])]
    rw [ih tail (fun d hd => hall d (by simp [hd]))]

/-- An aborting scan: if `run` has no excluded characters and `d` is a `"`
or a newline, the scan over `run ++ d :: tail` fails. -/
theorem findGroup_abort :
    ∀ (run : List Char) (d : Char) (tail : List Char),
      (∀ c ∈ run, isExcluded c = false) → (d = '"' ∨ d = '\n') →
      findGroup (run ++ d :: tail) = none := by
  intro run
  induction run with
  | nil =>
    intro d tail _ hd
    have hd' : d ≠ ']' := by rcases hd with hd | hd <;> simp [hd]
    simp only [List.nil_append, findGroup, if_neg hd']
    rw [if_pos (by rcases hd with hd | hd <;> simp [hd])]
  | cons c rest ih =>
    intro d tail hall hd
    have hc : isExcluded c = false := hall c (by simp)
    simp only [isExcluded, Bool.or_eq_false_iff, decide_eq_false_iff_not] at hc
    obtain ⟨⟨hc1, hc2⟩, hc3⟩ := hc
    simp only [List.cons_append, findGroup, List.append_eq, if_neg hc2]
    rw [if_neg (by simp [hc1, hc3])]
    rw [ih d tail (fun e he => hall e (by simp [he])) hd]

/-- A scan over a list with no excluded characters never closes. -/
theorem findGroup_all_clean :
    ∀ (l : List Char), (∀ c ∈ l, isExcluded c = false) → findGroup l = none := by
  intro l
  induction l with
  | nil => simp [findGroup]
  | cons c rest ih =>
    intro hall
    have hc : isExcluded c = false := hall c (by simp)
    simp only [isExcluded, Bool.or_eq_false_iff, decide_eq_false_iff_not] at hc
    obtain ⟨⟨hc1, hc2⟩, hc3⟩ := hc
    simp only [findGroup, if_neg hc2]
    rw [if_neg (by simp [hc1, hc3])]
    rw [ih (fun d hd => hall d (by simp [hd]))]

/-! ## Fuel irrelevance and unfolding equations for `patchChart` -/

theorem patchF_irrel :
    ∀ (n m : Nat) (l : List Char), l.length ≤ n → l.length ≤ m →
      patchF n l = patchF m l := by
  intro n
  induction n with
  | zero =>
    intro m l hn _
    have : l = [] := List.length_eq_zero.mp (Nat.le_zero.mp hn)
    subst this
    cases m <;> rfl
  | succ n ih =>
    intro m l hn hm
    cases l with
    | nil => cases m <;> rfl
    | cons c rest =>
      cases m with
      | zero => simp at hm
      | succ m =>
        simp only [List.length_cons, Nat.succ_le_succ_iff] at hn hm
        cases hfg : findGroup rest with
        | none =>
          simp only [patchF, hfg]
          rw [ih m rest hn hm]
        | some p =>
          obtain ⟨run, tail⟩ := p
          have htail : tail.length < rest.length := findGroup_some_length hfg
          simp only [patchF, hfg]
          rw [ih m rest hn hm, ih m tail (by omega) (by omega)]

theorem patchChart_nil : patchChart [] = [] := rfl

theorem patchChart_cons_plain (c : Char) (rest : List Char) (hc : c ≠ '[') :
    patchChart (c :: rest) = c :: patchChart rest := by
  simp only [patchChart, List.length_cons, patchF, if_neg hc]

theorem patchChart_cons_nogroup (rest : List Char) (hfg : findGroup rest = none) :
    patchChart ('[' :: rest) = '[' :: patchChart rest := by
  simp [patchChart, patchF, hfg]

theorem patchChart_cons_group_trigger (rest run tail : List Char)
    (hfg : findGroup rest = some (run, tail)) (ht : run.any isTrigger = true) :
    patchChart ('[' :: rest) =
      '[' :: '"' :: (run ++ '"' :: ']' :: patchChart tail) := by
  have htail : tail.length < rest.length := findGroup_some_length hfg
  simp only [patchChart, List.length_cons, patchF, hfg, ht, if_true, if_pos]
  rw [patchF_irrel rest.length tail.length tail (by omega) (by omega)]

theorem patchChart_cons_group_plain (rest run tail : List Char)
    (hfg : findGroup rest = some (run, tail)) (ht : run.any isTrigger = false) :
    patchChart ('[' :: rest) = '[' :: patchChart rest := by
  simp [patchChart, patchF, hfg, ht]

/-! ## Structural helpers for the repair pass -/

/-- A prefix without `[` is copied verbatim by the repair pass. -/
theorem patchChart_append_no_bracket (pre l : List Char) (hpre : '[' ∉ pre) :
    patchChart (pre ++ l) = pre ++ patchChart l := by
  induction pre with
  | nil => simp
  | cons c rest ih =>
    have hc : c ≠ '[' := by intro h; exact hpre (by simp [h])
    rw [List.cons_append, patchChart_cons_plain c _ hc,
      ih (fun h => hpre (by simp [h]))]
    simp

/-- A source without `[` is left unchanged by the repair pass. -/
theorem patchChart_no_bracket (l : List Char) (h : '[' ∉ l) : patchChart l = l := by
  have h0 := patchChart_append_no_bracket l [] h
  simpa [patchChart_nil] using h0

/-- Characters before an aborting `"` or newline are copied verbatim:
any `[` among them starts a span that hits the aborting character before
any `]`, so no repair fires there. -/
theorem patchChart_clean_abort (run : List Char) (d : Char) (l : List Char)
    (hrun : ∀ c ∈ run, isExcluded c = false) (hd : d = '"' ∨ d = '\n') :
    patchChart (run ++ d :: l) = run ++ d :: patchChart l := by
  induction run with
  | nil =>
    have hd' : d ≠ '[' := by rcases hd with hd | hd <;> simp [hd]
    simpa using patchChart_cons_plain d l hd'
  | cons c rest ih =>
    have hc : isExcluded c = false := hrun c (by simp)
    have hrest : ∀ e ∈ rest, isExcluded e = false :=
      fun e he => hrun e (by simp [he])
    by_cases hcb : c = '['
    · subst hcb
      rw [List.cons_append,
        patchChart_cons_nogroup _ (findGroup_abort rest d l hrest hd), ih hrest]
      simp
    · rw [List.cons_append, patchChart_cons_plain c _ hcb, ih hrest]
      simp

/-- A trigger-free bracket span closed by `]` is copied verbatim:
any `[` inside it closes at the same `]` with trigger-free contents. -/
theorem patchChart_clean_closed (run : List Char) (l : List Char)
    (hrun : ∀ c ∈ run, isExcluded c = false)
    (ht : run.any isTrigger = false) :
    patchChart (run ++ ']' :: l) = run ++ ']' :: patchChart l := by
  induction run with
  | nil => simpa using patchChart_cons_plain ']' l (by simp)
  | cons c rest ih =>
    have hrest : ∀ e ∈ rest, isExcluded e = false :=
      fun e he => hrun e (by simp [he])
    have htrest : rest.any isTrigger = false := by
      simp only [List.any_cons, Bool.or_eq_false_iff] at ht
      exact ht.2
    by_cases hcb : c = '['
    · subst hcb
      rw [List.cons_append,
        patchChart_cons_group_plain _ rest l (findGroup_of_shape rest l hrest) htrest,
        ih hrest htrest]
      simp
    · rw [List.cons_append, patchChart_cons_plain c _ hcb, ih hrest htrest]
      simp

/-- Decomposition of a failed scan: either the whole list is free of the
excluded characters, or a `"` / newline occurs before any `]`. -/
theorem findGroup_none_cases :
    ∀ (l : List Char), findGroup l = none →
      (∀ c ∈ l, isExcluded c = false) ∨
      ∃ pre d suff, l = pre ++ d :: suff ∧
        (∀ c ∈ pre, isExcluded c = false) ∧ (d = '"' ∨ d = '\n') := by
  intro l
  induction l with
  | nil => intro _; left; simp
  | cons c rest ih =>
    intro h
    by_cases hc : c = ']'
    · simp [findGroup, hc] at h
    · by_cases hq : c = '"' ∨ c = '\n'
      · right
        exact ⟨[], c, rest, by simp, by simp, hq⟩
      · push_neg at hq
        obtain ⟨hq1, hq2⟩ := hq
        simp only [findGroup, if_neg hc] at h
        rw [if_neg (by simp [hq1, hq2])] at h
        have hrest : findGroup rest = none := by
          cases hfg : findGroup rest with
          | none => rfl
          | some p => obtain ⟨run, tail⟩ := p; rw [hfg] at h; simp at h
        have hcex : isExcluded c = false := by simp [isExcluded, hc, hq1, hq2]
        rcases ih hrest with hall | ⟨pre, d, suff, he, hpre, hd⟩
        · left
          intro e he
          rcases List.mem_cons.mp he with he | he
          · subst he; exact hcex
          · exact hall e he
        · right
          refine ⟨c :: pre, d, suff, by simp [he], ?_, hd⟩
          intro e hme
          rcases List.mem_cons.mp hme with hme | hme
          · subst hme; exact hcex
          · exact hpre e hme

/-- A source free of `"`, `]` and newlines is left unchanged. -/
theorem patchChart_all_clean (l : List Char)
    (h : ∀ c ∈ l, isExcluded c = false) : patchChart l = l := by
  induction l with
  | nil => rfl
  | cons c rest ih =>
    have hrest : ∀ e ∈ rest, isExcluded e = false := fun e he => h e (by simp [he])
    by_cases hc : c = '['
    · subst hc
      rw [patchChart_cons_nogroup rest (findGroup_all_clean rest hrest), ih hrest]
    · rw [patchChart_cons_plain c rest hc, ih hrest]

/-- The repair pass never turns a failed scan into a successful one: it
only inserts `"` characters, which abort scans. -/
theorem findGroup_none_patchChart (l : List Char) (h : findGroup l = none) :
    findGroup (patchChart l) = none := by
  rcases findGroup_none_cases l h with hall | ⟨pre, d, suff, he, hpre, hd⟩
  · rw [patchChart_all_clean l hall]
    exact h
  · subst he
    rw [patchChart_clean_abort pre d suff hpre hd]
    exact findGroup_abort pre d (patchChart suff) hpre hd

theorem findGroup_quote_head (l : List Char) : findGroup ('"' :: l) = none := by
  simp [findGroup]

/-! ## From `findGroup` to spec-level bracket groups -/

/-- A span the repair pass matches is in particular a bracket group in the
spec's sense: it ends at the first `]`. -/
theorem findClose_of_findGroup :
    ∀ (l run tail : List Char), findGroup l = some (run, tail) →
      findClose l = some (run, tail) := by
  intro l
  induction l with
  | nil => intro run tail h; simp [findGroup] at h
  | cons c rest ih =>
    intro run tail h
    by_cases hc : c = ']'
    · simp [findGroup, hc] at h
      simp [findClose, hc, h]
    · by_cases hq : c = '"' ∨ c = '\n'
      · exfalso
        rcases hq with hq | hq <;> simp [findGroup, hc, hq] at h
      · push_neg at hq
        simp only [findGroup, if_neg hc] at h
        rw [if_neg (by simp [hq.1, hq.2])] at h
        cases hfg : findGroup rest with
        | none => rw [hfg] at h; simp at h
        | some p =>
          obtain ⟨run0, tail0⟩ := p
          rw [hfg] at h
          simp at h
          obtain ⟨h1, h2⟩ := h
          simp only [findClose, if_neg hc, ih run0 tail0 hfg]
          rw [← h1, h2]

theorem quote_mem_of_isQuotedLabel (run : List Char)
    (h : isQuotedLabel run = true) : '"' ∈ run := by
  cases run with
  | nil => simp [isQuotedLabel] at h
  | cons c rest =>
    simp only [isQuotedLabel, Bool.and_eq_true, beq_iff_eq, List.head?_cons,
      Option.some.injEq] at h
    rw [h.1.2]
    simp

theorem wellFormed_cons_tail (c : Char) (rest : List Char)
    (h : wellFormed (c :: rest) = true) : wellFormed rest = true := by
  simp only [wellFormed, Bool.and_eq_true] at h
  exact h.2

theorem wellFormed_bracket_group (rest run tail : List Char)
    (h : wellFormed ('[' :: rest) = true)
    (hfc : findClose rest = some (run, tail))
    (ht : run.any isTrigger = true) : isQuotedLabel run = true := by
  simp only [wellFormed, Bool.and_eq_true] at h
  have h1 := h.1
  rw [if_pos trivial] at h1
  rw [hfc] at h1
  simp [ht] at h1
  exact h1

/-- Core of C7: on well-formed sources the repair pass is the identity. -/
theorem patchChart_wellFormed_aux :
    ∀ (n : Nat) (l : List Char), l.length ≤ n → wellFormed l = true →
      patchChart l = l := by
  intro n
  induction n with
  | zero =>
    intro l hn _
    have : l = [] := List.length_eq_zero.mp (Nat.le_zero.mp hn)
    subst this
    rfl
  | succ n ih =>
    intro l hn hwf
    cases l with
    | nil => rfl
    | cons c rest =>
      simp only [List.length_cons, Nat.succ_le_succ_iff] at hn
      have hwfr : wellFormed rest = true := wellFormed_cons_tail c rest hwf
      by_cases hc : c = '['
      · subst hc
        cases hfg : findGroup rest with
        | none =>
          rw [patchChart_cons_nogroup rest hfg, ih rest hn hwfr]
        | some p =>
          obtain ⟨run, tail⟩ := p
          cases ht : run.any isTrigger with
          | false =>
            rw [patchChart_cons_group_plain rest run tail hfg ht, ih rest hn hwfr]
          | true =>
            exfalso
            have hq := wellFormed_bracket_group rest run tail hwf
              (findClose_of_findGroup rest run tail hfg) ht
            have hmem := quote_mem_of_isQuotedLabel run hq
            have hclean := (findGroup_some_eq_append rest run tail hfg).2 '"' hmem
            simp [isExcluded] at hclean
      · rw [patchChart_cons_plain c rest hc, ih rest hn hwfr]

/-- Core of C9: the repair pass is idempotent on arbitrary input. -/
theorem patchChart_idem_aux :
    ∀ (n : Nat) (l : List Char), l.length ≤ n →
      patchChart (patchChart l) = patchChart l := by
  intro n
  induction n with
  | zero =>
    intro l hn
    have : l = [] := List.length_eq_zero.mp (Nat.le_zero.mp hn)
    subst this
    rfl
  | succ n ih =>
    intro l hn
    cases l with
    | nil => rfl
    | cons c rest =>
      simp only [List.length_cons, Nat.succ_le_succ_iff] at hn
      by_cases hc : c = '['
      · subst hc
        cases hfg : findGroup rest with
        | none =>
          rw [patchChart_cons_nogroup rest hfg,
            patchChart_cons_nogroup (patchChart rest) (findGroup_none_patchChart rest hfg),
            ih rest hn]
        | some p =>
          obtain ⟨run, tail⟩ := p
          obtain ⟨he, hclean⟩ := findGroup_some_eq_append rest run tail hfg
          have htail : tail.length < rest.length := findGroup_some_length hfg
          cases ht : run.any isTrigger with
          | true =>
            rw [patchChart_cons_group_trigger rest run tail hfg ht]
            rw [patchChart_cons_nogroup _ (findGroup_quote_head _),
              patchChart_cons_plain '"' _ (by simp),
              patchChart_clean_abort run '"' (']' :: patchChart tail) hclean (Or.inl rfl),
              patchChart_cons_plain ']' _ (by simp),
              ih tail (by omega)]
          | false =>
            rw [patchChart_cons_group_plain rest run tail hfg ht]
            subst he
            rw [patchChart_clean_closed run tail hclean ht,
              patchChart_cons_group_plain _ run (patchChart tail)
                (findGroup_of_shape run (patchChart tail) hclean) ht,
              patchChart_clean_closed run (patchChart tail) hclean ht,
              ih tail (by omega)]
      · rw [patchChart_cons_plain c rest hc,
          patchChart_cons_plain c (patchChart rest) hc, ih rest hn]

/-! ## Claim theorems: the repair pass -/

/-- Claim C1 (amended): for every diagram source assembled from
bracket-free segments and bracket groups `[...]` whose contents contain
no double quote, no `]` and no newline, the repair pass returns the
source with the content of every such group that contains a parenthesis
or comma enclosed in double quotes, and every character outside such
groups byte-identical to the input. -/
theorem c1_repair_wraps_unquoted_groups :
    ∀ (gs : List (List Char × List Char)) (last : List Char),
      (∀ p ∈ gs, '[' ∉ p.1 ∧ ∀ c ∈ p.2, isExcluded c = false) →
      '[' ∉ last →
      patchChart (buildSrc gs last) = buildOut gs last := by
  intro gs
  induction gs with
  | nil =>
    intro last _ hlast
    simp only [buildSrc, buildOut]
    exact patchChart_no_bracket last hlast
  | cons p gs ih =>
    obtain ⟨seg, run⟩ := p
    intro last hall hlast
    have hseg : '[' ∉ seg := (hall (seg, run) (by simp)).1
    have hrun : ∀ c ∈ run, isExcluded c = false := (hall (seg, run) (by simp)).2
    have hrest : ∀ p ∈ gs, '[' ∉ p.1 ∧ ∀ c ∈ p.2, isExcluded c = false :=
      fun p hp => hall p (by simp [hp])
    simp only [buildSrc, buildOut]
    rw [patchChart_append_no_bracket seg _ hseg]
    cases ht : run.any isTrigger with
    | true =>
      rw [patchChart_cons_group_trigger _ run (buildSrc gs last)
        (findGroup_of_shape run (buildSrc gs last) hrun) ht, ih last hrest hlast]
      simp
    | false =>
      rw [patchChart_cons_group_plain _ run (buildSrc gs last)
        (findGroup_of_shape run (buildSrc gs last) hrun) ht,
        patchChart_clean_closed run (buildSrc gs last) hrun ht,
        ih last hrest hlast]
      simp

/-- Claim C1 counterexample: the bracket group of `A[a,\nb]` has a comma
in its content and is not already quoted, but the repair pass returns the
source unchanged rather than quoting the content: the regex's character
class `[^"\]\n]` refuses groups whose content spans a newline (and
likewise groups containing any stray `"`). -/
theorem c1_counterexample :
    ("a,\nb".toList).any isTrigger = true ∧
    ']' ∉ "a,\nb".toList ∧
    isQuotedLabel ("a,\nb".toList) = false ∧
    patchChart ("A[a,\nb]".toList) = "A[a,\nb]".toList ∧
    "A[a,\nb]".toList ≠ ("A[".toList ++ '"' :: "a,\nb".toList ++ "\"]".toList) := by
  decide

/-- Claim C1 witness: a source with one comma-bearing group and one plain
group; the first is wrapped, the second and all surrounding characters
are untouched. -/
theorem c1_witness :
    patchChart (buildSrc [("A ".toList, "x,(y)".toList),
        (" --> B".toList, "plain".toList)] ("; end".toList)) =
      buildOut [("A ".toList, "x,(y)".toList),
        (" --> B".toList, "plain".toList)] ("; end".toList) :=
  c1_repair_wraps_unquoted_groups _ _ (by decide) (by decide)

/-- Claim C7: a diagram source in which every bracket group whose content
contains a parenthesis or comma is already enclosed in double quotes is
returned unchanged by the repair pass. -/
theorem c7_wellformed_noop (l : List Char) (h : wellFormed l = true) :
    patchChart l = l :=
  patchChart_wellFormed_aux l.length l le_rfl h

/-- Claim C7 witness: a well-formed source with a quoted comma-bearing
label and a plain label is untouched. -/
theorem c7_witness :
    wellFormed ("graph TD\nA[\"ok (1)\"] --> B[plain]".toList) = true ∧
    patchChart ("graph TD\nA[\"ok (1)\"] --> B[plain]".toList) =
      "graph TD\nA[\"ok (1)\"] --> B[plain]".toList :=
  ⟨by decide, c7_wellformed_noop _ (by decide)⟩

/-- Claim C9: the repair pass is idempotent on every input, not only on
clean input: a patched group gains a `"`, and the regex never matches a
group whose content contains a `"`. -/
theorem c9_patch_idempotent (l : List Char) :
    patchChart (patchChart l) = patchChart l :=
  patchChart_idem_aux l.length l le_rfl

/-! ## Debounce lemmas -/

theorem runUpdates_rapid_aux :
    ∀ (us : List (Nat × List Char)) (t : Nat) (v : List Char),
      rapidAfter t us = true →
      runUpdates ⟨some (t + 600, v)⟩ us =
        (⟨some ((lastUpdate (t, v) us).1 + 600, (lastUpdate (t, v) us).2)⟩, []) := by
  intro us
  induction us with
  | nil => intro t v _; simp [runUpdates, lastUpdate]
  | cons q rest ih =>
    obtain ⟨t2, v2⟩ := q
    intro t v hr
    simp only [rapidAfter, Bool.and_eq_true, decide_eq_true_eq] at hr
    obtain ⟨⟨h1, h2⟩, h3⟩ := hr
    have hf : fireDue ⟨some (t + 600, v)⟩ t2 = (⟨some (t + 600, v)⟩, []) := by
      simp only [fireDue]
      rw [if_neg (by omega)]
    simp only [runUpdates, hf, applyUpdate, lastUpdate]
    rw [ih t2 v2 h3]
    simp

theorem fireDue_cases (tf : Nat) (v : List Char) (now : Nat) :
    (fireDue ⟨some (tf, v)⟩ now).2 = [] ∨ (fireDue ⟨some (tf, v)⟩ now).2 = [v] := by
  simp only [fireDue]
  by_cases h : tf ≤ now
  · right; rw [if_pos h]
  · left; rw [if_neg h]

/-! ## Send-gating lemmas -/

/-- The invariant linking the `Busy` flag to the number of in-flight
`sendMessageToGemini` calls. -/
def flightInv (s : ChatSystem) : Prop :=
  s.inFlight = if s.app.isLoading then 1 else 0

theorem handleSendMessage_busy (s : ChatAppState) (now : Nat)
    (h : s.isLoading = true) : handleSendMessage s now = (s, []) := by
  simp [handleSendMessage, h]

theorem stepSys_preserves_flightInv (s : ChatSystem) (e : ChatEvent)
    (h : flightInv s) : flightInv (stepSys s e) := by
  cases e with
  | submit now =>
    unfold flightInv at h ⊢
    by_cases hb : s.app.isLoading = true
    · simp only [stepSys, handleSendMessage_busy s.app now hb]
      simpa [hb] using h
    · have hb' : s.app.isLoading = false := by
        cases hx : s.app.isLoading
        · rfl
        · exact absurd hx hb
      by_cases hg : (s.app.inputValue.trim == "" || s.app.isLoading
          || !s.app.isInitialized) = true
      · simp only [stepSys, handleSendMessage, if_pos hg]
        simpa [hb'] using h
      · simp only [stepSys, handleSendMessage, if_neg hg]
        rw [hb'] at h
        simp at h
        simp [h]
  | resolve reply now =>
    unfold flightInv at h ⊢
    simp only [stepSys, if_neg (by simp : ¬False)]
    rw [if_neg (by simp)]
    by_cases hb : s.app.isLoading = true
    · rw [hb] at h; simp at h; omega
    · have hb' : s.app.isLoading = false := by
        cases hx : s.app.isLoading
        · rfl
        · exact absurd hx hb
      rw [hb'] at h; simp at h; omega

theorem foldl_preserves_flightInv (evs : List ChatEvent) :
    ∀ (s : ChatSystem), flightInv s → flightInv (evs.foldl stepSys s) := by
  induction evs with
  | nil => intro s h; exact h
  | cons e rest ih =>
    intro s h
    exact ih (stepSys s e) (stepSys_preserves_flightInv s e h)

/-! ## Gemini-service lemmas -/

theorem fallbackText_ne_empty : fallbackText ≠ "" := by decide

theorem commErrorText_ne_empty : commErrorText ≠ "" := by decide

theorem orFallback_ne_empty (t : Option String) : orFallback t ≠ "" := by
  match t with
  | none => exact fallbackText_ne_empty
  | some s =>
    simp only [orFallback]
    by_cases h : s = ""
    · rw [if_pos h]; exact fallbackText_ne_empty
    · rw [if_neg h]; exact h

theorem appendSources_extends (t : String) (cs : List GroundingChunk) :
    ∃ suffix, appendSources t cs = t ++ suffix := by
  simp only [appendSources]
  by_cases h1 : cs.isEmpty
  · rw [if_pos h1]; exact ⟨"", by simp⟩
  · rw [if_neg h1]
    by_cases h2 : (cs.filterMap chunkLink).isEmpty
    · rw [if_pos h2]; exact ⟨"", by simp⟩
    · rw [if_neg h2]
      exact ⟨_, by rw [String.append_assoc]⟩

theorem String.append_ne_empty_left (t u : String) (h : t ≠ "") :
    t ++ u ≠ "" := by
  intro hc
  apply h
  apply String.ext
  have hd := congrArg String.data hc
  rw [String.data_append] at hd
  have ht : t.data = [] := (List.append_eq_nil.mp hd).1
  rw [ht]

/-! ## Claim theorems: services, coordinator, component state -/

/-- Claim C4: `sendMessageToGemini` throws exactly when no chat session
is live; with a live session a backend failure is caught inside the
service and the fixed user-facing error string is returned instead of
being rethrown. -/
theorem c4_send_error_iff_no_session (live : Bool) (b : BackendResult) :
    ((∃ e, sendMessageToGemini live b = Except.error e) ↔ live = false) ∧
    sendMessageToGemini true BackendResult.failure = Except.ok commErrorText := by
  constructor
  · constructor
    · rintro ⟨e, he⟩
      cases live
      · rfl
      · cases b <;> simp [sendMessageToGemini] at he
    · intro hl
      subst hl
      exact ⟨notInitText, rfl⟩
  · rfl

/-- Claim C4 witness at a concrete uninitialized call. -/
theorem c4_witness :
    ((∃ e, sendMessageToGemini false BackendResult.failure = Except.error e)
      ↔ false = false) ∧
    sendMessageToGemini true BackendResult.failure = Except.ok commErrorText :=
  c4_send_error_iff_no_session false BackendResult.failure

/-- Claim C10: whenever `sendMessageToGemini` returns normally the
returned string is non-empty — an absent or empty model reply is
replaced by the fixed fallback text, and appending grounding sources
only extends the text. -/
theorem c10_reply_nonempty (live : Bool) (b : BackendResult) (s : String)
    (h : sendMessageToGemini live b = Except.ok s) :
    s ≠ "" ∧ orFallback none = fallbackText ∧ orFallback (some "") = fallbackText ∧
    ∀ t cs, ∃ suffix, appendSources t cs = t ++ suffix := by
  refine ⟨?_, rfl, rfl, fun t cs => appendSources_extends t cs⟩
  cases live with
  | false => simp [sendMessageToGemini] at h
  | true =>
    cases b with
    | failure =>
      simp only [sendMessageToGemini, if_pos trivial, Except.ok.injEq] at h
      rw [← h]
      exact commErrorText_ne_empty
    | success r =>
      simp only [sendMessageToGemini, if_pos trivial, Except.ok.injEq] at h
      obtain ⟨suffix, hsfx⟩ := appendSources_extends (orFallback r.text) r.groundingChunks
      rw [hsfx] at h
      rw [← h]
      exact String.append_ne_empty_left _ _ (orFallback_ne_empty r.text)

/-- Claim C10 witness at a concrete empty-reply response. -/
theorem c10_witness :
    fallbackText ≠ "" ∧ orFallback none = fallbackText ∧
    orFallback (some "") = fallbackText ∧
    ∀ t cs, ∃ suffix, appendSources t cs = t ++ suffix :=
  c10_reply_nonempty true (BackendResult.success ⟨none, []⟩) fallbackText rfl

/-- Claim C5: for a burst of chart updates each arriving less than 600 ms
after the previous one, every earlier scheduled render is cancelled
before it fires (no render fires during the burst) and the single
remaining timer carries the final chart value, so at most one render
attempt occurs and it uses the final value. -/
theorem c5_debounced_single_render (t : Nat) (v : List Char)
    (us : List (Nat × List Char)) (hr : rapidAfter t us = true) :
    runUpdates ⟨none⟩ ((t, v) :: us) =
      (⟨some ((lastUpdate (t, v) us).1 + 600, (lastUpdate (t, v) us).2)⟩, []) ∧
    ∀ now,
      (fireDue ⟨some ((lastUpdate (t, v) us).1 + 600, (lastUpdate (t, v) us).2)⟩ now).2 = []
      ∨ (fireDue ⟨some ((lastUpdate (t, v) us).1 + 600, (lastUpdate (t, v) us).2)⟩ now).2
          = [(lastUpdate (t, v) us).2] := by
  constructor
  · have h0 : fireDue ⟨none⟩ t = (⟨none⟩, []) := rfl
    simp only [runUpdates, h0, applyUpdate]
    rw [runUpdates_rapid_aux us t v hr]
    rfl
  · intro now
    exact fireDue_cases _ _ now

/-- Claim C5 witness: three updates 500 ms and 400 ms apart produce no
render during the burst and leave one timer holding the final chart. -/
theorem c5_witness :
    runUpdates ⟨none⟩ [(0, "gr".toList), (500, "grap".toList), (900, "graph".toList)] =
      (⟨some ((lastUpdate (0, "gr".toList)
          [(500, "grap".toList), (900, "graph".toList)]).1 + 600,
        (lastUpdate (0, "gr".toList)
          [(500, "grap".toList), (900, "graph".toList)]).2)⟩, []) ∧
    ∀ now,
      (fireDue ⟨some ((lastUpdate (0, "gr".toList)
          [(500, "grap".toList), (900, "graph".toList)]).1 + 600,
        (lastUpdate (0, "gr".toList)
          [(500, "grap".toList), (900, "graph".toList)]).2)⟩ now).2 = []
      ∨ (fireDue ⟨some ((lastUpdate (0, "gr".toList)
          [(500, "grap".toList), (900, "graph".toList)]).1 + 600,
        (lastUpdate (0, "gr".toList)
          [(500, "grap".toList), (900, "graph".toList)]).2)⟩ now).2
          = [(lastUpdate (0, "gr".toList)
              [(500, "grap".toList), (900, "graph".toList)]).2] :=
  c5_debounced_single_render 0 ("gr".toList)
    [(500, "grap".toList), (900, "graph".toList)] (by decide)

/-- Claim C6: while the `Busy` (`isLoading`) flag is set, a submit — even
with non-empty input — leaves the transcript and all other state
unchanged and triggers no `sendMessageToGemini` call; consequently at
most one `sendMessageToGemini` call is ever in flight. -/
theorem c6_busy_submit_noop (s : ChatAppState) (now : Nat)
    (h : s.isLoading = true) :
    handleSendMessage s now = (s, []) ∧
    ∀ evs : List ChatEvent, (evs.foldl stepSys chatSysInit).inFlight ≤ 1 := by
  refine ⟨handleSendMessage_busy s now h, ?_⟩
  intro evs
  have hinv : flightInv (evs.foldl stepSys chatSysInit) :=
    foldl_preserves_flightInv evs chatSysInit (by simp [flightInv, chatSysInit])
  unfold flightInv at hinv
  rw [hinv]
  split <;> omega

/-- Claim C6 witness: a busy state with non-empty input. -/
theorem c6_witness :
    handleSendMessage ⟨[], "hello", true, true⟩ 0 = (⟨[], "hello", true, true⟩, []) ∧
    ∀ evs : List ChatEvent, (evs.foldl stepSys chatSysInit).inFlight ≤ 1 :=
  c6_busy_submit_noop ⟨[], "hello", true, true⟩ 0 rfl

/-- Claim C2 (code bug): `fetchContext` stores its resolved text into
`puzzleContext` unconditionally.  In the trace below a fetch for
year 2025 / day 9 is in flight when the configuration changes to
year 2024 / day 5; when the stale fetch resolves, its summary is
written into `puzzleContext` of the now-changed configuration — there is
no freshness check in `fetchContext` after the `await`. -/
theorem c2_stale_fetch_overwrites_context :
    (fetchStart ⟨"2025", "9", "", false, none⟩).inFlight = some ("2025", "9") ∧
    (changeYearDay (fetchStart ⟨"2025", "9", "", false, none⟩) "2024" "5").year
      = "2024" ∧
    (changeYearDay (fetchStart ⟨"2025", "9", "", false, none⟩) "2024" "5").day
      = "5" ∧
    (changeYearDay (fetchStart ⟨"2025", "9", "", false, none⟩) "2024" "5").inFlight ≠
      some ((changeYearDay (fetchStart ⟨"2025", "9", "", false, none⟩) "2024" "5").year,
        (changeYearDay (fetchStart ⟨"2025", "9", "", false, none⟩) "2024" "5").day) ∧
    (fetchResolve (changeYearDay (fetchStart ⟨"2025", "9", "", false, none⟩) "2024" "5")
        "Summary of 2025 day 9").puzzleContext = "Summary of 2025 day 9" ∧
    (fetchResolve (changeYearDay (fetchStart ⟨"2025", "9", "", false, none⟩) "2024" "5")
        "Summary of 2025 day 9").year = "2024" := by
  refine ⟨rfl, rfl, rfl, ?_, rfl, rfl⟩
  decide

/-- The superseded guarded variant shows the intended behaviour: once the
starting effect instance is unmounted by a year/day change, the stale
resolution leaves the configuration untouched. -/
theorem fetchResolveGuarded_stale_noop (s : FetchConfig) (text : String) :
    fetchResolveGuarded s text false = s := rfl

/-- Claim C3 (code bug): on a render failure the component does enter the
failed state displaying the original unpatched source, but the Retry
button only clears the error flag: it issues no render-engine call, and
the component falls through to the svg view with an empty svg — the
render effect depends only on the chart prop, so the pipeline is not
re-run. -/
theorem c3_retry_does_not_rerun_pipeline :
    mermaidView (renderChartStep (mermaidInit ("graph TD\nA[".toList))
        (fun _ => RenderOutcome.raise)).1
      = MermaidView.failed ("graph TD\nA[".toList) ∧
    (retryClick (renderChartStep (mermaidInit ("graph TD\nA[".toList))
        (fun _ => RenderOutcome.raise)).1).2 = [] ∧
    mermaidView (retryClick (renderChartStep (mermaidInit ("graph TD\nA[".toList))
        (fun _ => RenderOutcome.raise)).1).1
      = MermaidView.compact [] :=
  ⟨rfl, rfl, rfl⟩

/-- Claim C8 counterexample: two successive render attempts of the same
diagram block hand `mermaid.render` the identifier from the block's
`idRef`, minted once at mount — the second render's identifier is
identical to, not distinct from, the prior render's. -/
theorem c8_counterexample :
    renderIds ("a1b2c3d4e".toList) 2 =
      [mkMermaidId ("a1b2c3d4e".toList), mkMermaidId ("a1b2c3d4e".toList)] ∧
    ¬ mkMermaidId ("a1b2c3d4e".toList) ≠ mkMermaidId ("a1b2c3d4e".toList) :=
  ⟨rfl, fun h => h rfl⟩

/-- Claim C8 (amended): each diagram block mints one identifier
(`"mermaid-"` plus a random seed) at mount; every render attempt of that
block reuses exactly this identifier, and blocks whose seeds differ use
distinct identifiers, avoiding collisions between concurrent blocks. -/
theorem c8_block_id_stable_and_unique (seed1 seed2 : List Char) (n : Nat)
    (hs : seed1 ≠ seed2) :
    (∀ i ∈ renderIds seed1 n, i = mkMermaidId seed1) ∧
    mkMermaidId seed1 ≠ mkMermaidId seed2 := by
  constructor
  · intro i hi
    exact List.eq_of_mem_replicate hi
  · intro h
    exact hs (List.append_cancel_left h)

/-- Claim C8 witness at two concrete distinct seeds. -/
theorem c8_witness :
    (∀ i ∈ renderIds ("a1b2c3d4e".toList) 3, i = mkMermaidId ("a1b2c3d4e".toList)) ∧
    mkMermaidId ("a1b2c3d4e".toList) ≠ mkMermaidId ("z9y8x7w6v".toList) :=
  c8_block_id_stable_and_unique _ _ 3 (by decide)
